import Mathlib

/-
Shallow embedding of the chain-indexing core of the watcher-ts repository.

Each definition below is translated from a named function of the source:
  * checkIPLDMetaData, combineIPLDState     (compare utils)
  * EthClient.getBlocks, getFullBlocks, getLogs, getStorageAt,
    _getCachedOrFetch                       (packages/rpc-eth-client/src/eth-client.ts)
  * fillState                               (packages/eden-watcher/src/fill-state.ts)
  * Database.addQuery, Client.addQuery      (codegen)

Conventions: JavaScript objects with a fixed field set become structures;
JSON-ish dictionaries become association lists (JS object keys are ordered,
and lodash merge preserves destination order and appends new source keys);
async results become plain values; a thrown error becomes an `Except.error`;
`process.exit(code)` becomes an `Option Nat` exit code alongside the list of
side-effecting actions performed before the exit.  JavaScript string
comparison by `localeCompare` is modeled by the code-point order on `String`
(a fixed total order; the sort below only depends on it being one), and
`Array.prototype.sort` (stable per the ECMAScript specification) is modeled
by `List.mergeSort`, which is also stable, so both compute the unique stable
sort of the list.
-/

namespace Watcher

/-! ### State-record metadata verification (checkIPLDMetaData) -/

/-- The per-contract entry of `contractLatestStateCIDMap`: the CID of the
latest tracked `diff` record and of the latest tracked `checkpoint` record
(empty string = not tracked). -/
structure ParentCIDs where
  diff : String
  checkpoint : String
deriving DecidableEq, Repr

/-- The `meta` object embedded in a state record's `data` payload:
`{id, kind, parent: {'/': …}, ethBlock: {cid: {'/': …}, num}}`.
`parent` holds the string under the `'/'` key. -/
structure StateMeta where
  id : String
  kind : String
  parent : String
  ethBlockCid : String
  ethBlockNum : Int
deriving DecidableEq, Repr

/-- A state record as returned by the GQL `getState` query: contract address,
record CID, record kind, the block it belongs to, and the parsed `data.meta`. -/
structure ContractIPLD where
  contractAddress : String
  cid : String
  kind : String
  blockCid : String
  blockNumber : Int
  meta : StateMeta
deriving DecidableEq, Repr

/-- `checkIPLDMetaData` from the compare utils, for a present record.  The
first component is whether a difference is reported (`compareObjects` returns
a non-empty diff exactly when the expected meta differs from the actual one);
the second component is the updated map entry for the contract.  When the
record's CID equals a tracked parent CID the check is skipped and the map is
left unchanged. -/
def checkIPLDMetaData (ipld : ContractIPLD) (parentCIDs : ParentCIDs) :
    Bool × ParentCIDs :=
  if ipld.cid = parentCIDs.diff ∨ ipld.cid = parentCIDs.checkpoint then
    (false, parentCIDs)
  else
    let nextParentCIDs : ParentCIDs :=
      if ipld.kind = "checkpoint" then
        { diff := parentCIDs.diff, checkpoint := ipld.cid }
      else
        { diff := ipld.cid, checkpoint := "" }
    let actualParentCID := ipld.meta.parent
    let parentCID : String :=
      if parentCIDs.diff = "" then actualParentCID
      else if parentCIDs.checkpoint ≠ "" ∧ actualParentCID = parentCIDs.checkpoint then
        parentCIDs.checkpoint
      else parentCIDs.diff
    let expectedMetaData : StateMeta :=
      { id := ipld.contractAddress
        kind := ipld.kind
        parent := parentCID
        ethBlockCid := ipld.blockCid
        ethBlockNum := ipld.blockNumber }
    (decide (expectedMetaData ≠ ipld.meta), nextParentCIDs)

/-- The parenting rule of the spec, relative to the tracked previous CIDs:
the record's claimed parent is the previous `diff`, or the previous
`checkpoint` when one is tracked. -/
def parentRuleHolds (ipld : ContractIPLD) (p : ParentCIDs) : Prop :=
  ipld.meta.parent = p.diff ∨ (p.checkpoint ≠ "" ∧ ipld.meta.parent = p.checkpoint)

/-- The non-parent components of the embedded meta agree with the record
itself: `id` is the contract address, `kind` matches, and `ethBlock` is the
record's block. -/
def metaFieldsMatch (ipld : ContractIPLD) : Prop :=
  ipld.meta.id = ipld.contractAddress ∧ ipld.meta.kind = ipld.kind ∧
  ipld.meta.ethBlockCid = ipld.blockCid ∧ ipld.meta.ethBlockNum = ipld.blockNumber

/-! ### Chain client adapter (eth-client.ts) -/

/-- A raw block as returned by the upstream JSON-RPC provider
(`eth_getBlockByHash` / `eth_getBlockByNumber`).  Hash-like fields are hex
strings; the quantity fields are modeled as the integers they decode to
(`BigInt(…)` and `Number(…)` in the source are then the identity). -/
structure RawBlock where
  hash : String
  parentHash : String
  sha3Uncles : String
  miner : String
  stateRoot : String
  transactionsRoot : String
  receiptsRoot : String
  logsBloom : String
  difficulty : Int
  number : Int
  gasLimit : Int
  gasUsed : Int
  timestamp : Int
  extraData : String
  mixHash : String
  nonce : Int
  baseFeePerGas : Int
  totalDifficulty : Int
deriving DecidableEq, Repr

/-- An error thrown by the upstream provider: its `code` and the `message`
of its nested `error` object when that object is present. -/
structure UpstreamError where
  code : String
  message : Option String
deriving DecidableEq, Repr

/-- The exact message the upstream client uses for a block beyond `latest`
(apostrophes written with escapes). -/
def futureEpochMsg : String := "requested a future epoch (beyond \x27latest\x27)"

/-- The condition of the `catch` clause of `getBlocks`:
`err.code === errors.SERVER_ERROR && err.error && err.error.message === …`
(`errors.SERVER_ERROR` is the string `"SERVER_ERROR"` in ethers). -/
def isFutureEpochError (e : UpstreamError) : Bool :=
  decide (e.code = "SERVER_ERROR") &&
    (match e.message with
     | some m => decide (m = futureEpochMsg)
     | none => false)

/-- A node of the `allEthHeaderCids.nodes` list built by `getBlocks`. -/
structure BlockNode where
  blockNumber : String
  blockHash : String
  parentHash : String
  timestamp : String
  stateRoot : String
  td : String
  txRoot : String
  receiptRoot : String
deriving DecidableEq, Repr

/-- The node `getBlocks` builds from a formatted raw block.  The ethers
formatter normalizes already well-formed hex strings to themselves and is
modeled as the identity; `.toString()` on numbers is `toString`. -/
def formatBlockNode (raw : RawBlock) : BlockNode :=
  { blockNumber := toString raw.number
    blockHash := raw.hash
    parentHash := raw.parentHash
    timestamp := toString raw.timestamp
    stateRoot := raw.stateRoot
    td := toString raw.totalDifficulty
    txRoot := raw.transactionsRoot
    receiptRoot := raw.receiptsRoot }

/-- `getBlocks`, given the outcome of the upstream fetch (an error, no block,
or a raw block): the caught future-epoch error leaves `nodes` empty, every
other error is rethrown, a missing block gives an empty node list. -/
def getBlocks (fetched : Except UpstreamError (Option RawBlock)) :
    Except UpstreamError (List BlockNode) :=
  match fetched with
  | Except.error err =>
      if isFutureEpochError err then Except.ok [] else Except.error err
  | Except.ok none => Except.ok []
  | Except.ok (some raw) => Except.ok [formatBlockNode raw]

/-- A value of the header object `getFullBlocks` passes to `encodeHeader`:
a hex string, a `BigInt(…)` conversion, or a `Number(…)` conversion. -/
inductive HeaderVal where
  | str : String → HeaderVal
  | big : Int → HeaderVal
  | num : Int → HeaderVal
deriving DecidableEq, Repr

/-- The header object built by `getFullBlocks` from the raw block, as the
ordered list of its fields (JS object fields keep insertion order). -/
def blockHeader (raw : RawBlock) : List (String × HeaderVal) :=
  [("Parent", HeaderVal.str raw.parentHash),
   ("UnclesDigest", HeaderVal.str raw.sha3Uncles),
   ("Beneficiary", HeaderVal.str raw.miner),
   ("StateRoot", HeaderVal.str raw.stateRoot),
   ("TxRoot", HeaderVal.str raw.transactionsRoot),
   ("RctRoot", HeaderVal.str raw.receiptsRoot),
   ("Bloom", HeaderVal.str raw.logsBloom),
   ("Difficulty", HeaderVal.big raw.difficulty),
   ("Number", HeaderVal.big raw.number),
   ("GasLimit", HeaderVal.big raw.gasLimit),
   ("GasUsed", HeaderVal.big raw.gasUsed),
   ("Time", HeaderVal.num raw.timestamp),
   ("Extra", HeaderVal.str raw.extraData),
   ("MixDigest", HeaderVal.str raw.mixHash),
   ("Nonce", HeaderVal.big raw.nonce),
   ("BaseFee", HeaderVal.big raw.baseFeePerGas)]

/-- The node built by `getFullBlocks`; `blockByMhKeyData` is the
`blockByMhKey.data` field holding the escaped RLP of the header. -/
structure FullBlockNode where
  blockNumber : String
  blockHash : String
  parentHash : String
  timestamp : String
  stateRoot : String
  td : String
  txRoot : String
  receiptRoot : String
  uncleRoot : String
  bloom : String
  blockByMhKeyData : String
deriving DecidableEq, Repr

/-- `getFullBlocks`, with `encodeHeader` and `escapeHexString` (both from the
repository's util package, outside the sources at hand) kept as opaque
function parameters: the claim under verification is about what is passed to
them, not what they compute. -/
def getFullBlocks (encodeHeader : List (String × HeaderVal) → String)
    (escapeHexString : String → String) (raw : RawBlock) : FullBlockNode :=
  let rlpData := encodeHeader (blockHeader raw)
  { blockNumber := toString raw.number
    blockHash := raw.hash
    parentHash := raw.parentHash
    timestamp := toString raw.timestamp
    stateRoot := raw.stateRoot
    td := toString raw.totalDifficulty
    txRoot := raw.transactionsRoot
    receiptRoot := raw.receiptsRoot
    uncleRoot := raw.sha3Uncles
    bloom := escapeHexString raw.logsBloom
    blockByMhKeyData := escapeHexString rlpData }

/-! ### getLogs and the caching layer -/

/-- A log as returned by `provider.getLogs`. -/
structure ProviderLog where
  address : String
  blockNumber : Int
  transactionHash : String
  topics : List String
  data : String
  logIndex : Int
deriving DecidableEq, Repr

/-- The upstream `provider.getLogs({fromBlock, toBlock, address?})` over a
modeled chain (the list of all logs the chain has emitted): the logs in the
block range, filtered by address when one is given. -/
def providerGetLogs (chain : List ProviderLog) (fromBlock toBlock : Int)
    (address : Option String) : List ProviderLog :=
  chain.filter (fun l =>
    decide (fromBlock ≤ l.blockNumber) && decide (l.blockNumber ≤ toBlock) &&
      (match address with
       | some a => decide (l.address = a)
       | none => true))

/-- ASCII lowercase on a character, as `String.prototype.toLowerCase` acts
on the characters of a hex address. -/
def lowerChar (c : Char) : Char :=
  if 65 ≤ c.toNat ∧ c.toNat ≤ 90 then Char.ofNat (c.toNat + 32) else c

/-- `address.toLowerCase()` on a hex address string. -/
def lowerStr (s : String) : String := String.mk (s.data.map lowerChar)

/-- The fetch closure of `getLogs`: per-address queries are flattened; when
the flattened list is empty the whole block is queried without an address
filter; every returned log's address is lowercased. -/
def fetchLogs (chain : List ProviderLog) (blockNumber : Int)
    (addresses : List String) : List ProviderLog :=
  let logsByAddress := addresses.map
    (fun address => providerGetLogs chain blockNumber blockNumber (some address))
  let logs := logsByAddress.flatten
  let logs :=
    if logs.length = 0 then providerGetLogs chain blockNumber blockNumber none
    else logs
  logs.map (fun l => { l with address := lowerStr l.address })

/-- An entry of the `logs` list `getLogs` returns (the `account.address`,
`transaction.hash` and `status` fields flattened). -/
structure ResultLog where
  address : String
  txHash : String
  topics : List String
  data : String
  index : Int
  status : Option Int
deriving DecidableEq, Repr

/-- The per-log result mapping of `getLogs`; the receipt lookup (one
`getTransactionReceipt` per distinct transaction hash, collected in a map)
is modeled by the oracle `receiptStatus`. -/
def resultLogOf (receiptStatus : String → Option Int) (l : ProviderLog) : ResultLog :=
  { address := l.address
    txHash := l.transactionHash
    topics := l.topics
    data := l.data
    index := l.logIndex
    status := receiptStatus l.transactionHash }

/-- The `vars` object of a client call, used as part of the cache key. -/
structure Vars where
  blockHash : Option String := none
  blockNumber : Option String := none
  contract : Option String := none
  slot : Option String := none
  addresses : Option (List String) := none
deriving DecidableEq, Repr

/-- Modelled from the spec: the caching layer's lookup ("on hit return
cached value"), keyed by `{queryName, vars}`; the cache package itself is
outside the sources at hand.  The cache is a list of key-value pairs. -/
def cacheGet {V : Type} (cache : List ((String × Vars) × V))
    (key : String × Vars) : Option V :=
  (cache.find? (fun kv => decide (kv.1 = key))).map (fun kv => kv.2)

/-- Modelled from the spec: the caching layer's store ("on miss fetch,
store, return"): any previous entry for the key is replaced. -/
def cachePut {V : Type} (cache : List ((String × Vars) × V))
    (key : String × Vars) (v : V) : List ((String × Vars) × V) :=
  cache.filter (fun kv => decide (kv.1 ≠ key)) ++ [(key, v)]

/-- The outcome of `_getCachedOrFetch`: the value returned, the cache
afterwards, and whether the upstream fetch closure was invoked. -/
structure FetchOutcome (V : Type) where
  result : V
  cache : Option (List ((String × Vars) × V))
  fetched : Bool

/-- `EthClient._getCachedOrFetch`: with a cache, a hit returns the cached
value without fetching; a miss fetches, stores and returns; with the cache
disabled (`none`) it always fetches and stores nothing. -/
def getCachedOrFetch {V : Type} (cache : Option (List ((String × Vars) × V)))
    (queryName : String) (vars : Vars) (fetch : V) : FetchOutcome V :=
  match cache with
  | some c =>
      match cacheGet c (queryName, vars) with
      | some v => { result := v, cache := some c, fetched := false }
      | none =>
          { result := fetch
            cache := some (cachePut c (queryName, vars) fetch)
            fetched := true }
  | none => { result := fetch, cache := none, fetched := true }

/-- Modelled from the spec: `padKey` (from the ipld-eth-client package,
outside the sources at hand) left-pads a storage slot to 32 bytes, i.e. to
64 hex characters. -/
def padKey (s : String) : String :=
  String.mk (List.replicate (64 - s.length) '0') ++ s

/-- The `vars` of a `getStorageAt` call. -/
def storageVars (blockHash contract slot : String) : Vars :=
  { blockHash := some blockHash, contract := some contract, slot := some slot }

/-- The value-and-proof object `getStorageAt` returns; `proofData` is the
`proof.data` field, `JSON.stringify(null)`. -/
structure StorageResult where
  value : String
  proofData : String
deriving DecidableEq, Repr

/-- `EthClient.getStorageAt`: pads the slot, routes the provider read
through `_getCachedOrFetch`, and wraps the value with the null proof. -/
def getStorageAtM (cache : Option (List ((String × Vars) × String)))
    (blockHash contract slot : String)
    (provider : String → String → String → String) :
    StorageResult × Option (List ((String × Vars) × String)) × Bool :=
  let slotPadded := "0x" ++ padKey slot
  let o := getCachedOrFetch cache "getStorageAt"
    (storageVars blockHash contract slotPadded)
    (provider contract slotPadded blockHash)
  ({ value := o.result, proofData := "null" }, o.cache, o.fetched)

/-- The `vars` of a `getLogs` call (the `addresses` key is absent when the
caller passed none). -/
def logsVars (blockHash blockNumber : String)
    (addresses : Option (List String)) : Vars :=
  { blockHash := some blockHash, blockNumber := some blockNumber
    addresses := addresses }

/-- The distinct transaction hashes of a log list in first-occurrence order:
the `txHashesSet` that `getLogs` folds out of its (cached or fetched) result
(a JS `Set` preserves insertion order).  One upstream
`provider.getTransactionReceipt` call is then made per entry. -/
def txHashesOf (logs : List ProviderLog) : List String :=
  logs.foldl
    (fun acc l =>
      if l.transactionHash ∈ acc then acc else acc ++ [l.transactionHash])
    []

/-- `EthClient.getLogs`: routes the log fetch through `_getCachedOrFetch`
keyed by the full `vars`, defaults a missing address list to `[]`, then —
whether the log list came from the cache or from a fresh fetch — issues one
upstream `getTransactionReceipt` call per distinct transaction hash of the
result and maps each log to the result shape.  The fourth component is the
list of those upstream receipt calls; `receiptStatus` models the content of
the receipt map they build (status looked up per transaction hash).
`vars.blockNumber` is the decimal string of the block number
(`Number(blockNumber)` recovers the integer). -/
def getLogsM (cache : Option (List ((String × Vars) × List ProviderLog)))
    (chain : List ProviderLog) (receiptStatus : String → Option Int)
    (blockHash : String) (blockNumber : Int)
    (addresses : Option (List String)) :
    List ResultLog × Option (List ((String × Vars) × List ProviderLog)) ×
      Bool × List String :=
  let vars := logsVars blockHash (toString blockNumber) addresses
  let o := getCachedOrFetch cache "getLogs" vars
    (fetchLogs chain blockNumber (addresses.getD []))
  (o.result.map (resultLogOf receiptStatus), o.cache, o.fetched,
    txHashesOf o.result)

/-- `EthClient.getBlocks` as a method of the client: the body never reads or
writes `this._cache` and always issues the upstream request, so the cache is
returned unchanged and the fetched flag is constantly `true`. -/
def getBlocksM (cache : Option (List ((String × Vars) × List BlockNode)))
    (fetched : Except UpstreamError (Option RawBlock)) :
    Except UpstreamError (List BlockNode) ×
      Option (List ((String × Vars) × List BlockNode)) × Bool :=
  (getBlocks fetched, cache, true)

/-- `EthClient.getFullBlocks` as a method of the client: likewise no cache
interaction and an unconditional upstream request. -/
def getFullBlocksM (cache : Option (List ((String × Vars) × FullBlockNode)))
    (encodeHeader : List (String × HeaderVal) → String)
    (escapeHexString : String → String) (raw : RawBlock) :
    FullBlockNode × Option (List ((String × Vars) × FullBlockNode)) × Bool :=
  (getFullBlocks encodeHeader escapeHexString raw, cache, true)

/-! ### fill-state (eden-watcher) -/

/-- The environment `fillState` runs against: the block numbers of the
StateRecords already in the database, the non-pruned block hashes the
database holds at each height, and whether an IPFS endpoint is configured. -/
structure FillEnv where
  stateBlockNumbers : List Int
  blocksAtHeight : Int → List String
  ipfsConfigured : Bool

/-- The state-writing side effects `fillState` performs, in order. -/
inductive FillAction where
  | createInit (blockHash : String) (blockNumber : Int)
  | dumpSubgraphState (blockHash : String)
  | updateHooksStatus (blockNumber : Int)
  | processCheckpoint (blockHash : String)
  | updateCheckpointStatus (blockNumber : Int)
  | pushToIPFS (blockNumber : Int)
deriving DecidableEq, Repr

/-- `indexer.getIPLDBlocks({block: {blockNumber: Between(start, end)}})`:
the existing state records whose block number lies in the inclusive range. -/
def getIPLDBlocksInRange (env : FillEnv) (startBlock endBlock : Int) : List Int :=
  env.stateBlockNumbers.filter (fun b => decide (startBlock ≤ b ∧ b ≤ endBlock))

/-- One iteration per block of the `for` loop of `fillState`, with fuel equal
to the number of blocks left; returns the actions performed and the exit
code of a `process.exit`, if one was reached. -/
def fillStateLoop (env : FillEnv) (blockNumber : Int) :
    Nat → List FillAction × Option Nat
  | 0 => ([], none)
  | n + 1 =>
    match env.blocksAtHeight blockNumber with
    | [] => ([], some 1)
    | [blockHash] =>
        let acts : List FillAction :=
          [FillAction.createInit blockHash blockNumber,
           FillAction.dumpSubgraphState blockHash,
           FillAction.updateHooksStatus blockNumber,
           FillAction.processCheckpoint blockHash,
           FillAction.updateCheckpointStatus blockNumber] ++
          (if env.ipfsConfigured then [FillAction.pushToIPFS blockNumber] else [])
        let rest := fillStateLoop env (blockNumber + 1) n
        (acts ++ rest.1, rest.2)
    | _ => ([], some 1)

/-- `fillState`: exits with code 1 when the range is inverted or when any
StateRecord already exists in the inclusive range, before performing any
state-writing action; otherwise runs the per-block loop. -/
def fillState (env : FillEnv) (startBlock endBlock : Int) :
    List FillAction × Option Nat :=
  if startBlock > endBlock then ([], some 1)
  else if (getIPLDBlocksInRange env startBlock endBlock).length > 0 then ([], some 1)
  else fillStateLoop env startBlock (endBlock + 1 - startBlock).toNat

/-! ### Codegen addQuery (Database and Client classes) -/

/-- A query parameter as used by the codegen classes. -/
structure Param where
  name : String
  type : String
deriving DecidableEq, Repr

/-- The query object stored by `Database.addQuery`. -/
structure DbQueryObject where
  name : String
  entityName : String
  getQueryName : String
  saveQueryName : String
  params : List Param
  returnParameters : List String
deriving DecidableEq, Repr

/-- The query object stored by `Client.addQuery`. -/
structure ClientQueryObject where
  name : String
  getQueryName : String
  params : List Param
deriving DecidableEq, Repr

/-- `name.charAt(i).toUpperCase() + name.slice(i + 1)` for i = 0. -/
def capitalizeFrom0 (name : String) : String :=
  (name.take 1).toUpper ++ name.drop 1

/-- `name.charAt(1).toUpperCase() + name.slice(2)`. -/
def capitalizeFrom1 (name : String) : String :=
  ((name.drop 1).take 1).toUpper ++ name.drop 2

/-- The parameter type rewrite of `addQuery`: each solidity type is mapped
to a GraphQL type and then to a TS type, with an assertion (modeled as
`Option`) that each mapping is defined.  The mapping tables live in the
codegen utils, outside the sources at hand, and are parameters here. -/
def mapQueryParams (gqlForSol tsForGql : String → Option String)
    (params : List Param) : Option (List Param) :=
  params.mapM (fun p => do
    let g ← gqlForSol p.type
    let t ← tsForGql g
    pure { p with type := t })

/-- `Database.addQuery`: returns the stored query list unchanged when a
query of the same name is already present; otherwise appends the new query
object (`none` models an assertion failure in the type mapping). -/
def dbAddQuery (gqlForSol tsForGql : String → Option String)
    (queries : List DbQueryObject) (name : String) (params : List Param)
    (returnParameters : List String) : Option (List DbQueryObject) :=
  if queries.any (fun q => decide (q.name = name)) then some queries
  else
    let names : String × String × String :=
      if name.take 1 = "_" then
        let capitalized := capitalizeFrom1 name
        ("_" ++ capitalized, "_get" ++ capitalized, "_save" ++ capitalized)
      else
        let capitalized := capitalizeFrom0 name
        (capitalized, "get" ++ capitalized, "save" ++ capitalized)
    match mapQueryParams gqlForSol tsForGql params with
    | none => none
    | some ps =>
        some (queries ++
          [{ name := name
             entityName := names.1
             getQueryName := names.2.1
             saveQueryName := names.2.2
             params := ps
             returnParameters := returnParameters }])

/-- `Client.addQuery`: same early return on a duplicate name; otherwise
appends the new query object. -/
def clientAddQuery (gqlForSol tsForGql : String → Option String)
    (queries : List ClientQueryObject) (name : String) (params : List Param) :
    Option (List ClientQueryObject) :=
  if queries.any (fun q => decide (q.name = name)) then some queries
  else
    let getName : String :=
      if name.take 1 = "_" then "_get" ++ capitalizeFrom1 name
      else "get" ++ capitalizeFrom0 name
    match mapQueryParams gqlForSol tsForGql params with
    | none => none
    | some ps =>
        some (queries ++ [{ name := name, getQueryName := getName, params := ps }])

/-! ### combineIPLDState (compare utils) -/

/-- An element of an entity-relation array field: it carries an `id` (the
JS truthiness test `fieldValue[0].id` is `id ≠ ""`, the empty string standing
for an absent or empty id) and its remaining data. -/
structure RelEntity where
  id : String
  val : String
deriving DecidableEq, Repr

/-- A field value of an entity inside `data.state`: a scalar, or an array of
entity references. -/
inductive FieldValue where
  | scalar : String → FieldValue
  | arr : List RelEntity → FieldValue
deriving DecidableEq, Repr

/-- An entity: its fields in JS object order. -/
abbrev Entity := List (String × FieldValue)

/-- The id→entity map of one entity type. -/
abbrev IdEntityMap := List (String × Entity)

/-- The `data.state` payload: entity name → id → entity. -/
abbrev StateData := List (String × IdEntityMap)

/-- Modelled from the spec: `DEFAULT_LIMIT` (imported from the database
module, outside the sources at hand) is the default query limit applied to
entity-relation arrays; its value in the repository is 100.  The claims
below only depend on it through this name. -/
def DEFAULT_LIMIT : Nat := 100

/-- Code-point lexicographic `≤` on character lists, written by structural
recursion. -/
def strLeList : List Char → List Char → Bool
  | [], _ => true
  | _ :: _, [] => false
  | a :: as, b :: bs =>
      if a.toNat < b.toNat then true
      else if b.toNat < a.toNat then false
      else strLeList as bs

/-- Code-point lexicographic `≤` on strings. -/
def strLe (s t : String) : Bool := strLeList s.data t.data

/-- The comparator `(a, b) => a.id.localeCompare(b.id)` as a `≤` test;
locale collation is modeled by the code-point order on strings (the sort
below only depends on the comparator being a total preorder). -/
def relLe (a b : RelEntity) : Bool := strLe a.id b.id

/-- Insert into a sorted list in front of the first element that is not
smaller: the standard stable insertion step. -/
def orderedInsert (a : RelEntity) : List RelEntity → List RelEntity
  | [] => [a]
  | b :: l => if relLe a b then a :: b :: l else b :: orderedInsert a l

/-- Stable sort by the id comparator.  `Array.prototype.sort` is required
to be stable by the ECMAScript specification, and a stable sort's output is
uniquely determined by the comparator, so any stable sort is a faithful
model of it. -/
def insertionSort : List RelEntity → List RelEntity
  | [] => []
  | a :: l => orderedInsert a (insertionSort l)

/-- The per-field normalization of `combineIPLDState`: a non-empty array
whose first element has a truthy `id` is sorted by `id` (stable sort) and
truncated by `splice(DEFAULT_LIMIT)`; anything else is left unchanged. -/
def procField : FieldValue → FieldValue
  | FieldValue.scalar s => FieldValue.scalar s
  | FieldValue.arr [] => FieldValue.arr []
  | FieldValue.arr (e :: rest) =>
      if e.id = "" then FieldValue.arr (e :: rest)
      else FieldValue.arr ((insertionSort (e :: rest)).take DEFAULT_LIMIT)

/-- Field normalization over one entity. -/
def processEntity (ent : Entity) : Entity :=
  ent.map (fun kv => (kv.1, procField kv.2))

/-- Field normalization over one entity type's id→entity map. -/
def processIdEntityMap (m : IdEntityMap) : IdEntityMap :=
  m.map (fun kv => (kv.1, processEntity kv.2))

/-- Field normalization over a whole `data.state` payload (the nested
`Object.values(…).forEach` walk of the source). -/
def processState (d : StateData) : StateData :=
  d.map (fun kv => (kv.1, processIdEntityMap kv.2))

/-- The per-contract step of `combineIPLDState`: a missing record
contributes the empty object, a present one its normalized `data.state`. -/
def processIPLD : Option StateData → StateData
  | none => []
  | some d => processState d

/-- Lodash `_.merge` on two arrays of (fully populated) entity references:
index-wise recursive merge, where merging two fully populated objects keeps
the source one; the destination's extra tail survives. -/
def mergeArr (a b : List RelEntity) : List RelEntity :=
  b ++ a.drop b.length

/-- Lodash `_.merge` on two field values: arrays merge index-wise, any other
source value overrides by assignment. -/
def mergeFV : FieldValue → FieldValue → FieldValue
  | FieldValue.arr a, FieldValue.arr b => FieldValue.arr (mergeArr a b)
  | _, s => s

/-- Lodash `_.merge` on two JS objects given the merge of their values:
destination keys keep their order (merged with the source value on a shared
key), new source keys are appended in source order. -/
def mergeAssoc {V : Type} (m : V → V → V) (a b : List (String × V)) :
    List (String × V) :=
  (a.map (fun kv =>
    match List.lookup kv.1 b with
    | some w => (kv.1, m kv.2 w)
    | none => kv)) ++
  b.filter (fun kv => (List.lookup kv.1 a).isNone)

/-- `_.merge` on two entities. -/
def mergeEntity : Entity → Entity → Entity := mergeAssoc mergeFV

/-- `_.merge` on two id→entity maps. -/
def mergeIdEntityMap : IdEntityMap → IdEntityMap → IdEntityMap :=
  mergeAssoc mergeEntity

/-- `_.merge` on two `data.state` payloads. -/
def mergeState : StateData → StateData → StateData := mergeAssoc mergeIdEntityMap

/-- `combineIPLDState`: normalize each contract's payload, then
`reduce((acc, state) => _.merge(acc, state))` — which in JS throws on an
empty array (modeled as `none`) and folds from the first element otherwise. -/
def combineIPLDState (contractIPLDs : List (Option StateData)) :
    Option StateData :=
  match contractIPLDs.map processIPLD with
  | [] => none
  | s :: rest => some (rest.foldl mergeState s)

/-! ### Permutation relations and id-uniqueness side conditions -/

/-- Two field values equal up to reordering of entity-relation arrays. -/
def fvPerm : FieldValue → FieldValue → Prop
  | FieldValue.scalar s, FieldValue.scalar t => s = t
  | FieldValue.arr a, FieldValue.arr b => a.Perm b
  | _, _ => False

/-- Two entities equal up to reordering of their array fields. -/
def entPerm : Entity → Entity → Prop :=
  List.Forall₂ (fun x y => x.1 = y.1 ∧ fvPerm x.2 y.2)

/-- Two id→entity maps equal up to reordering of array fields. -/
def idMapPerm : IdEntityMap → IdEntityMap → Prop :=
  List.Forall₂ (fun x y => x.1 = y.1 ∧ entPerm x.2 y.2)

/-- Two payloads equal up to reordering of array fields. -/
def statePerm : StateData → StateData → Prop :=
  List.Forall₂ (fun x y => x.1 = y.1 ∧ idMapPerm x.2 y.2)

/-- Two optional payloads equal up to reordering of array fields. -/
def optStatePerm : Option StateData → Option StateData → Prop
  | none, none => True
  | some a, some b => statePerm a b
  | _, _ => False

/-- An entity-relation array is well-formed: every element has a non-empty
id and the ids are pairwise distinct. -/
def goodArr (l : List RelEntity) : Prop :=
  (∀ e ∈ l, e.id ≠ "") ∧ (l.map RelEntity.id).Nodup

/-- Well-formedness of a field value. -/
def goodFV : FieldValue → Prop
  | FieldValue.scalar _ => True
  | FieldValue.arr l => goodArr l

/-- Well-formedness of every array field of an entity. -/
def goodEntity (ent : Entity) : Prop := ∀ kv ∈ ent, goodFV kv.2

/-- Well-formedness of every array field under an entity type. -/
def goodIdEntityMap (m : IdEntityMap) : Prop := ∀ kv ∈ m, goodEntity kv.2

/-- Well-formedness of every array field of a payload. -/
def goodStateData (d : StateData) : Prop := ∀ kv ∈ d, goodIdEntityMap kv.2

/-- Well-formedness of an optional payload. -/
def goodOpt : Option StateData → Prop
  | none => True
  | some d => goodStateData d

instance : DecidableEq Entity := inferInstance

instance : DecidableEq IdEntityMap := inferInstance

instance : DecidableEq StateData := inferInstance

instance : DecidableEq (Option StateData) := inferInstance

/-! ### Concrete data used by witnesses and counterexamples -/

/-- A tracked previous diff with no tracked checkpoint. -/
def c1CexParents : ParentCIDs := { diff := "cidDiff8", checkpoint := "" }

/-- A non-init record whose claimed parent is exactly the tracked previous
diff (the parenting rule holds) but whose embedded `meta.kind` disagrees
with the record's kind. -/
def c1CexIpld : ContractIPLD :=
  { contractAddress := "0xabc", cid := "cidDiff9", kind := "diff"
    blockCid := "blockCid9", blockNumber := 9
    meta := { id := "0xabc", kind := "checkpoint", parent := "cidDiff8"
              ethBlockCid := "blockCid9", ethBlockNum := 9 } }

/-- Tracked previous diff and checkpoint for the C1 witness. -/
def w1Parents : ParentCIDs := { diff := "d1", checkpoint := "c1" }

/-- A record parenting onto the tracked checkpoint with matching meta. -/
def w1Ipld : ContractIPLD :=
  { contractAddress := "0xaa", cid := "d2", kind := "diff"
    blockCid := "b2", blockNumber := 2
    meta := { id := "0xaa", kind := "diff", parent := "c1"
              ethBlockCid := "b2", ethBlockNum := 2 } }

/-- An untracked map entry (empty diff CID), as at the start of
verification of a contract. -/
def w9Parents : ParentCIDs := { diff := "", checkpoint := "" }

/-- A first verified record claiming an arbitrary parent CID. -/
def w9Ipld : ContractIPLD :=
  { contractAddress := "0xbb", cid := "x1", kind := "diff"
    blockCid := "b1", blockNumber := 1
    meta := { id := "0xbb", kind := "diff", parent := "someArbitraryParent"
              ethBlockCid := "b1", ethBlockNum := 1 } }

/-- A chain holding one log at block 5, emitted by `0xB`, an address that is
not in the watched set used below. -/
def c2Chain : List ProviderLog :=
  [{ address := "0xB", blockNumber := 5, transactionHash := "0xt1"
     topics := ["0xtopic"], data := "0xd", logIndex := 0 }]

/-- The same log after the lowercasing step of `getLogs`. -/
def c2Expected : ProviderLog :=
  { address := "0xb", blockNumber := 5, transactionHash := "0xt1"
    topics := ["0xtopic"], data := "0xd", logIndex := 0 }

/-- The exact future-epoch server error. -/
def wFutureErr : UpstreamError :=
  { code := "SERVER_ERROR", message := some futureEpochMsg }

/-- Some other upstream error. -/
def wOtherErr : UpstreamError := { code := "TIMEOUT", message := none }

/-- First payload for the C4 counterexample: an already sorted two-element
relation array. -/
def c4P1 : Option StateData :=
  some [("E", [("1", [("f",
    FieldValue.arr [{ id := "a", val := "x" }, { id := "b", val := "y" }])])])]

/-- Second payload for the C4 counterexample: the same entity field with a
single element of a larger id. -/
def c4P2 : Option StateData :=
  some [("E", [("1", [("f", FieldValue.arr [{ id := "z", val := "w" }])])])]

/-- The unsorted array the lodash merge produces for the field `f`. -/
def c4BadArr : List RelEntity :=
  [{ id := "z", val := "w" }, { id := "b", val := "y" }]

/-- An unsorted single-payload input for the C4 witness. -/
def c4WitnessInput : StateData :=
  [("E", [("1", [("f",
    FieldValue.arr [{ id := "b", val := "y" }, { id := "a", val := "x" }])])])]

/-- The normalized array the witness payload's field becomes. -/
def c4WitnessArr : List RelEntity :=
  [{ id := "a", val := "x" }, { id := "b", val := "y" }]

/-- C5 counterexample input: two elements sharing the id `a`. -/
def c5P1 : List (Option StateData) :=
  [some [("E", [("1", [("f",
    FieldValue.arr [{ id := "a", val := "x" }, { id := "a", val := "y" }])])])]]

/-- The same input with the duplicate-id elements swapped. -/
def c5P2 : List (Option StateData) :=
  [some [("E", [("1", [("f",
    FieldValue.arr [{ id := "a", val := "y" }, { id := "a", val := "x" }])])])]]

/-- C5 witness input: distinct non-empty ids, unsorted. -/
def c5WPs : List (Option StateData) :=
  [some [("E", [("1", [("f",
    FieldValue.arr [{ id := "b", val := "y" }, { id := "a", val := "x" }])])])]]

/-- The same input with the two elements swapped. -/
def c5WQs : List (Option StateData) :=
  [some [("E", [("1", [("f",
    FieldValue.arr [{ id := "a", val := "x" }, { id := "b", val := "y" }])])])]]

/-- A database with an existing StateRecord at block 203 and one canonical
block at every height. -/
def wFillEnv : FillEnv :=
  { stateBlockNumbers := [203]
    blocksAtHeight := fun _ => ["0xhash"]
    ipfsConfigured := false }

/-- A cached node under the `getBlocks` cache key for block number 5. -/
def c7CachedNode : BlockNode :=
  { blockNumber := "5", blockHash := "0xcachedhash", parentHash := "0xp"
    timestamp := "1", stateRoot := "0xs", td := "1", txRoot := "0xt"
    receiptRoot := "0xr" }

/-- The `vars` of a `getBlocks` call for block number 5. -/
def c7CexVars : Vars := { blockNumber := some "5" }

/-- A cache already holding a value for that `getBlocks` key. -/
def c7CexCache : List ((String × Vars) × List BlockNode) :=
  [(("getBlocks", c7CexVars), [c7CachedNode])]

/-- The raw block the upstream provider returns for block 5; its hash
differs from the cached node's. -/
def c7CexRaw : RawBlock :=
  { hash := "0xfreshhash", parentHash := "0xp", sha3Uncles := "0xu"
    miner := "0xm", stateRoot := "0xs", transactionsRoot := "0xt"
    receiptsRoot := "0xr", logsBloom := "0xb", difficulty := 1, number := 5
    gasLimit := 1, gasUsed := 1, timestamp := 1, extraData := "0xe"
    mixHash := "0xmix", nonce := 1, baseFeePerGas := 1, totalDifficulty := 1 }

/-- A storage provider always answering `0xstorval`. -/
def wStorageProv : String → String → String → String := fun _ _ _ => "0xstorval"

/-- The padded slot for the two-character slot `01`. -/
def wSlotPadded : String := "0x" ++ padKey "01"

/-- A storage cache already holding a value for the padded key. -/
def wStorageCache : List ((String × Vars) × String) :=
  [(("getStorageAt", storageVars "0xbh" "0xct" wSlotPadded), "0xcachedval")]

/-- A logs cache holding a non-empty log list for block 7 watched by `0xa`:
on this cache hit the log fetch is skipped but a receipt lookup for the
cached log's transaction still goes upstream. -/
def wLogsCache : List ((String × Vars) × List ProviderLog) :=
  [(("getLogs", logsVars "0xbh" "7" (some ["0xa"])), [c2Expected])]

/-- A receipt-status oracle. -/
def wReceiptStatus : String → Option Int := fun _ => some 1

/-- An opaque RLP encoder for the witness. -/
def wEnc : List (String × HeaderVal) → String := fun _ => "0xrlp"

/-- An opaque hex escaper for the witness. -/
def wEsc : String → String := fun s => s

/-- A type-mapping table sending every solidity type to a GraphQL type. -/
def wGqlForSol : String → Option String := fun _ => some "BigInt"

/-- A type-mapping table sending every GraphQL type to a TS type. -/
def wTsForGql : String → Option String := fun _ => some "bigint"

/-- A stored Database query list already containing `balanceOf`. -/
def wDbQueries : List DbQueryObject :=
  [{ name := "balanceOf", entityName := "BalanceOf"
     getQueryName := "getBalanceOf", saveQueryName := "saveBalanceOf"
     params := [], returnParameters := [] }]

/-- A stored Client query list already containing `balanceOf`. -/
def wClientQueries : List ClientQueryObject :=
  [{ name := "balanceOf", getQueryName := "getBalanceOf", params := [] }]

/-! ### Helper lemmas -/

/-- Mapping a function over two `Forall₂`-related lists gives equal lists
when the function agrees on related elements (membership on the left is
available to discharge side conditions). -/
theorem map_eq_of_forall₂ {α β : Type} {R : α → α → Prop} {f : α → β} :
    ∀ {l₁ l₂ : List α}, List.Forall₂ R l₁ l₂ →
      (∀ a ∈ l₁, ∀ b, R a b → f a = f b) → l₁.map f = l₂.map f := by
  intro l₁ l₂ h
  induction h with
  | nil => intro _; rfl
  | cons hab htl ih =>
      intro hf
      simp only [List.map_cons]
      rw [hf _ (List.mem_cons_self _ _) _ hab,
        ih (fun a ha b hr => hf a (List.mem_cons_of_mem _ ha) b hr)]

/-! ### C3: future-epoch error normalization in getBlocks -/

/-- C3.  When the upstream request fails with the future-epoch server error,
`getBlocks` returns a result with an empty node list; any other upstream
error is rethrown unchanged. -/
theorem c3_theorem (e : UpstreamError) :
    (isFutureEpochError e = true → getBlocks (Except.error e) = Except.ok []) ∧
    (isFutureEpochError e = false → getBlocks (Except.error e) = Except.error e) := by
  constructor <;> intro h <;> simp [getBlocks, h]

/-- Witness for C3 at the two kinds of concrete errors. -/
theorem c3_theorem_witness :
    getBlocks (Except.error wFutureErr) = Except.ok [] ∧
    getBlocks (Except.error wOtherErr) = Except.error wOtherErr :=
  ⟨(c3_theorem wFutureErr).1 (by decide), (c3_theorem wOtherErr).2 (by decide)⟩

/-! ### C8: header fields fed to the RLP encoder by getFullBlocks -/

/-- C8.  The RLP input of every block fetched by `getFullBlocks` is exactly
the header built from the raw upstream fields parent, uncles digest,
beneficiary, state/tx/receipt roots, bloom, difficulty, number, gasLimit,
gasUsed, time, extra, mixDigest, nonce and baseFee, in that order. -/
theorem c8_theorem (encodeHeader : List (String × HeaderVal) → String)
    (escapeHexString : String → String) (raw : RawBlock) :
    (getFullBlocks encodeHeader escapeHexString raw).blockByMhKeyData =
      escapeHexString (encodeHeader
        [("Parent", HeaderVal.str raw.parentHash),
         ("UnclesDigest", HeaderVal.str raw.sha3Uncles),
         ("Beneficiary", HeaderVal.str raw.miner),
         ("StateRoot", HeaderVal.str raw.stateRoot),
         ("TxRoot", HeaderVal.str raw.transactionsRoot),
         ("RctRoot", HeaderVal.str raw.receiptsRoot),
         ("Bloom", HeaderVal.str raw.logsBloom),
         ("Difficulty", HeaderVal.big raw.difficulty),
         ("Number", HeaderVal.big raw.number),
         ("GasLimit", HeaderVal.big raw.gasLimit),
         ("GasUsed", HeaderVal.big raw.gasUsed),
         ("Time", HeaderVal.num raw.timestamp),
         ("Extra", HeaderVal.str raw.extraData),
         ("MixDigest", HeaderVal.str raw.mixHash),
         ("Nonce", HeaderVal.big raw.nonce),
         ("BaseFee", HeaderVal.big raw.baseFeePerGas)]) ∧
    (blockHeader raw).map Prod.fst =
      ["Parent", "UnclesDigest", "Beneficiary", "StateRoot", "TxRoot",
       "RctRoot", "Bloom", "Difficulty", "Number", "GasLimit", "GasUsed",
       "Time", "Extra", "MixDigest", "Nonce", "BaseFee"] :=
  ⟨rfl, rfl⟩

/-! ### C2: address filtering in getLogs -/

/-- C2 (code bug).  At block 5, with the non-empty watched list `["0xaaa"]`
that matches no emitted log, `getLogs`'s fetch returns the log emitted by
the foreign address `0xB`: the per-address queries come back empty, so the
`!logs.length` fallback (commented as the no-addresses case) refetches the
whole block without an address filter. -/
theorem c2_theorem :
    fetchLogs c2Chain 5 ["0xaaa"] = [c2Expected] ∧
    providerGetLogs c2Chain 5 5 (some "0xaaa") = [] ∧
    c2Expected.address ≠ "0xaaa" := by
  refine ⟨by decide, by decide, by decide⟩

/-! ### C6: fillState aborts on pre-existing state -/

/-- C6.  Whenever some StateRecord already exists with a block number inside
the inclusive range, `fillState` exits with code 1 having performed no
state-writing action. -/
theorem c6_theorem (env : FillEnv) (startBlock endBlock : Int)
    (h : ∃ b ∈ env.stateBlockNumbers, startBlock ≤ b ∧ b ≤ endBlock) :
    fillState env startBlock endBlock = ([], some 1) := by
  obtain ⟨b, hb, hsb, hbe⟩ := h
  unfold fillState
  by_cases hse : startBlock > endBlock
  · rw [if_pos hse]
  · rw [if_neg hse]
    have hmem : b ∈ getIPLDBlocksInRange env startBlock endBlock := by
      unfold getIPLDBlocksInRange
      exact List.mem_filter.mpr ⟨hb, by simp [hsb, hbe]⟩
    rw [if_pos (List.length_pos.mpr (List.ne_nil_of_mem hmem))]

/-- Witness for C6: a record at block 203 aborts `fill-state 200 205`. -/
theorem c6_theorem_witness : fillState wFillEnv 200 205 = ([], some 1) :=
  c6_theorem wFillEnv 200 205 ⟨203, by decide, by decide, by decide⟩

/-! ### C10: addQuery is idempotent per query name -/

/-- C10.  On both codegen classes, `addQuery` with an already-stored name
returns the stored query list unchanged. -/
theorem c10_theorem :
    (∀ (gqlForSol tsForGql : String → Option String)
        (queries : List DbQueryObject) (name : String) (params : List Param)
        (returnParameters : List String),
      (∃ q ∈ queries, q.name = name) →
      dbAddQuery gqlForSol tsForGql queries name params returnParameters =
        some queries) ∧
    (∀ (gqlForSol tsForGql : String → Option String)
        (queries : List ClientQueryObject) (name : String) (params : List Param),
      (∃ q ∈ queries, q.name = name) →
      clientAddQuery gqlForSol tsForGql queries name params = some queries) := by
  constructor
  · intro g t qs name ps rp h
    obtain ⟨q, hq, hname⟩ := h
    have hc : (qs.any fun q => decide (q.name = name)) = true :=
      List.any_eq_true.mpr ⟨q, hq, decide_eq_true hname⟩
    simp [dbAddQuery, hc]
  · intro g t qs name ps h
    obtain ⟨q, hq, hname⟩ := h
    have hc : (qs.any fun q => decide (q.name = name)) = true :=
      List.any_eq_true.mpr ⟨q, hq, decide_eq_true hname⟩
    simp [clientAddQuery, hc]

/-- Witness for C10 on concrete stored lists. -/
theorem c10_theorem_witness :
    dbAddQuery wGqlForSol wTsForGql wDbQueries "balanceOf" [] [] =
      some wDbQueries ∧
    clientAddQuery wGqlForSol wTsForGql wClientQueries "balanceOf" [] =
      some wClientQueries :=
  ⟨c10_theorem.1 wGqlForSol wTsForGql wDbQueries "balanceOf" [] []
      (by decide),
   c10_theorem.2 wGqlForSol wTsForGql wClientQueries "balanceOf" []
      (by decide)⟩

/-! ### C1 and C9: what checkIPLDMetaData reports -/

/-- C1 (counterexample).  A non-init record whose claimed parent CID is
exactly the tracked previous diff — the parenting rule holds — for which
`checkIPLDMetaData` nevertheless reports a difference (its embedded
`meta.kind` disagrees with the record's kind), so the verifier does not
report a difference exactly when the parenting rule is violated. -/
theorem c1_counterexample :
    (checkIPLDMetaData c1CexIpld c1CexParents).1 = true ∧
    parentRuleHolds c1CexIpld c1CexParents ∧
    c1CexIpld.kind ≠ "init" ∧ c1CexParents.diff ≠ "" ∧
    c1CexIpld.cid ≠ c1CexParents.diff ∧
    c1CexIpld.cid ≠ c1CexParents.checkpoint :=
  ⟨by decide, Or.inl (by decide), by decide, by decide, by decide, by decide⟩

/-- C1 (amended).  For a record of an already-tracked contract (non-empty
tracked diff CID) that is not skipped as a duplicate, `checkIPLDMetaData`
reports a difference exactly when the record violates the parenting rule
(parent is the tracked previous diff, or the tracked previous checkpoint
when one exists) or any other meta field (id, kind, ethBlock) mismatches. -/
theorem c1_theorem (ipld : ContractIPLD) (p : ParentCIDs)
    (hdiff : p.diff ≠ "") (h1 : ipld.cid ≠ p.diff) (h2 : ipld.cid ≠ p.checkpoint) :
    (checkIPLDMetaData ipld p).1 = true ↔
      ¬(metaFieldsMatch ipld ∧ parentRuleHolds ipld p) := by
  obtain ⟨addr, cid, kind, bcid, bnum, mid, mkind, mparent, mbcid, mbnum⟩ := ipld
  obtain ⟨pd, pc⟩ := p
  simp only [checkIPLDMetaData, metaFieldsMatch, parentRuleHolds]
  rw [if_neg (by simp only [ne_eq] at h1 h2; simp [h1, h2])]
  simp only [decide_eq_true_eq]
  apply not_congr
  simp only [StateMeta.mk.injEq]
  rw [if_neg (by simpa using hdiff)]
  by_cases hc : pc ≠ "" ∧ mparent = pc
  · rw [if_pos hc]
    constructor
    · intro h
      obtain ⟨e1, e2, e3, e4, e5⟩ := h
      exact ⟨⟨e1.symm, e2.symm, e4.symm, e5.symm⟩, Or.inr hc⟩
    · intro h
      obtain ⟨⟨e1, e2, e3, e4⟩, hrule⟩ := h
      exact ⟨e1.symm, e2.symm, hc.2.symm, e3.symm, e4.symm⟩
  · rw [if_neg hc]
    constructor
    · intro h
      obtain ⟨e1, e2, e3, e4, e5⟩ := h
      exact ⟨⟨e1.symm, e2.symm, e4.symm, e5.symm⟩, Or.inl e3.symm⟩
    · intro h
      obtain ⟨⟨e1, e2, e3, e4⟩, hrule⟩ := h
      cases hrule with
      | inl hr => exact ⟨e1.symm, e2.symm, hr.symm, e3.symm, e4.symm⟩
      | inr hr => exact absurd hr hc

/-- Witness for the amended C1 at a concrete checkpoint-parented record. -/
theorem c1_theorem_witness :
    (checkIPLDMetaData w1Ipld w1Parents).1 = true ↔
      ¬(metaFieldsMatch w1Ipld ∧ parentRuleHolds w1Ipld w1Parents) :=
  c1_theorem w1Ipld w1Parents (by decide) (by decide) (by decide)

/-- C9.  With no tracked previous state CID (empty tracked diff), the
expected parent is taken from the record's own claimed parent, so a
difference is reported exactly when a non-parent meta field mismatches —
never because of the claimed parent CID, whatever it is. -/
theorem c9_theorem (ipld : ContractIPLD) (p : ParentCIDs)
    (hdiff : p.diff = "") (h1 : ipld.cid ≠ p.diff) (h2 : ipld.cid ≠ p.checkpoint) :
    (checkIPLDMetaData ipld p).1 = true ↔ ¬metaFieldsMatch ipld := by
  obtain ⟨addr, cid, kind, bcid, bnum, mid, mkind, mparent, mbcid, mbnum⟩ := ipld
  obtain ⟨pd, pc⟩ := p
  simp only [checkIPLDMetaData, metaFieldsMatch]
  rw [if_neg (by simp only [ne_eq] at h1 h2; simp [h1, h2])]
  simp only [decide_eq_true_eq]
  apply not_congr
  simp only [StateMeta.mk.injEq]
  simp only at hdiff
  subst hdiff
  rw [if_pos rfl]
  constructor
  · intro h
    obtain ⟨e1, e2, e3, e4, e5⟩ := h
    exact ⟨e1.symm, e2.symm, e4.symm, e5.symm⟩
  · intro h
    obtain ⟨e1, e2, e3, e4⟩ := h
    exact ⟨e1.symm, e2.symm, rfl, e3.symm, e4.symm⟩

/-- Witness for C9: a first record claiming an arbitrary parent passes. -/
theorem c9_theorem_witness :
    (checkIPLDMetaData w9Ipld w9Parents).1 = true ↔ ¬metaFieldsMatch w9Ipld :=
  c9_theorem w9Ipld w9Parents (by decide) (by decide) (by decide)

/-! ### C7: which client reads flow through the caching layer -/

/-- C7 (counterexample).  Even with the cache holding a value under the
`getBlocks` key for the requested block number, `getBlocks` issues the
upstream request, returns the upstream-derived result rather than the cached
value, and leaves the cache untouched: the read does not flow through the
caching layer. -/
theorem c7_counterexample :
    cacheGet c7CexCache ("getBlocks", c7CexVars) = some [c7CachedNode] ∧
    getBlocksM (some c7CexCache) (Except.ok (some c7CexRaw)) =
      (Except.ok [formatBlockNode c7CexRaw], some c7CexCache, true) ∧
    [formatBlockNode c7CexRaw] ≠ [c7CachedNode] := by
  refine ⟨by decide, rfl, by decide⟩

/-- Folding transaction hashes over a non-empty accumulator never empties
it. -/
theorem txFoldl_ne_nil : ∀ (t : List ProviderLog) (acc : List String),
    acc ≠ [] →
    t.foldl (fun acc l =>
      if l.transactionHash ∈ acc then acc else acc ++ [l.transactionHash])
      acc ≠ [] := by
  intro t
  induction t with
  | nil => intro acc h; exact h
  | cons l t ih =>
      intro acc h
      simp only [List.foldl_cons]
      by_cases hm : l.transactionHash ∈ acc
      · rw [if_pos hm]; exact ih acc h
      · rw [if_neg hm]; exact ih _ (by simp)

/-- C7 (amended).  `getStorageAt` flows through the caching layer: a hit
returns the cached value without contacting upstream and leaves the cache
unchanged; a miss fetches, stores and returns.  `getLogs` routes its log
fetch through the caching layer the same way, but — hit or miss — it then
contacts the upstream provider with one `getTransactionReceipt` call per
distinct transaction hash of the returned logs, so on a hit with a
non-empty cached result the upstream provider is still contacted.
`getBlocks` and `getFullBlocks` never consult the cache and always contact
the upstream provider. -/
theorem c7_theorem :
    (∀ (c : List ((String × Vars) × String)) (bh ct sl : String)
        (provider : String → String → String → String) (v : String),
      cacheGet c ("getStorageAt", storageVars bh ct ("0x" ++ padKey sl)) = some v →
      getStorageAtM (some c) bh ct sl provider =
        ({ value := v, proofData := "null" }, some c, false)) ∧
    (∀ (c : List ((String × Vars) × String)) (bh ct sl : String)
        (provider : String → String → String → String),
      cacheGet c ("getStorageAt", storageVars bh ct ("0x" ++ padKey sl)) = none →
      getStorageAtM (some c) bh ct sl provider =
        ({ value := provider ct ("0x" ++ padKey sl) bh, proofData := "null" },
         some (cachePut c ("getStorageAt", storageVars bh ct ("0x" ++ padKey sl))
           (provider ct ("0x" ++ padKey sl) bh)),
         true)) ∧
    (∀ (c : List ((String × Vars) × List ProviderLog)) (chain : List ProviderLog)
        (receiptStatus : String → Option Int) (bh : String) (bn : Int)
        (addrs : Option (List String)) (v : List ProviderLog),
      cacheGet c ("getLogs", logsVars bh (toString bn) addrs) = some v →
      getLogsM (some c) chain receiptStatus bh bn addrs =
        (v.map (resultLogOf receiptStatus), some c, false, txHashesOf v)) ∧
    (∀ (c : List ((String × Vars) × List ProviderLog)) (chain : List ProviderLog)
        (receiptStatus : String → Option Int) (bh : String) (bn : Int)
        (addrs : Option (List String)),
      cacheGet c ("getLogs", logsVars bh (toString bn) addrs) = none →
      getLogsM (some c) chain receiptStatus bh bn addrs =
        ((fetchLogs chain bn (addrs.getD [])).map (resultLogOf receiptStatus),
         some (cachePut c ("getLogs", logsVars bh (toString bn) addrs)
           (fetchLogs chain bn (addrs.getD []))),
         true,
         txHashesOf (fetchLogs chain bn (addrs.getD [])))) ∧
    (∀ (logs : List ProviderLog), logs ≠ [] → txHashesOf logs ≠ []) ∧
    (∀ (c : Option (List ((String × Vars) × List BlockNode)))
        (fetched : Except UpstreamError (Option RawBlock)),
      getBlocksM c fetched = (getBlocks fetched, c, true)) ∧
    (∀ (c : Option (List ((String × Vars) × FullBlockNode)))
        (enc : List (String × HeaderVal) → String) (esc : String → String)
        (raw : RawBlock),
      getFullBlocksM c enc esc raw = (getFullBlocks enc esc raw, c, true)) := by
  refine ⟨?_, ?_, ?_, ?_, ?_, ?_, ?_⟩
  · intro c bh ct sl provider v h
    simp [getStorageAtM, getCachedOrFetch, h]
  · intro c bh ct sl provider h
    simp [getStorageAtM, getCachedOrFetch, h]
  · intro c chain receiptStatus bh bn addrs v h
    simp [getLogsM, getCachedOrFetch, h]
  · intro c chain receiptStatus bh bn addrs h
    simp [getLogsM, getCachedOrFetch, h]
  · intro logs h
    cases logs with
    | nil => exact absurd rfl h
    | cons l t =>
        simp only [txHashesOf, List.foldl_cons, List.not_mem_nil, if_neg,
          List.nil_append]
        exact txFoldl_ne_nil t [l.transactionHash] (by simp)
  · intro c fetched; rfl
  · intro c enc esc raw; rfl

/-- Witness for the amended C7: a concrete hit (with a non-empty cached
log list, whose receipt lookup still goes upstream) and miss of each cached
operation, the upstream receipt calls on that hit, and the
cache-independence of the uncached operations. -/
theorem c7_theorem_witness :
    getStorageAtM (some wStorageCache) "0xbh" "0xct" "01" wStorageProv =
      ({ value := "0xcachedval", proofData := "null" }, some wStorageCache, false) ∧
    getStorageAtM (some []) "0xbh" "0xct" "01" wStorageProv =
      ({ value := "0xstorval", proofData := "null" },
       some (cachePut [] ("getStorageAt", storageVars "0xbh" "0xct" wSlotPadded)
         "0xstorval"),
       true) ∧
    getLogsM (some wLogsCache) c2Chain wReceiptStatus "0xbh" 7 (some ["0xa"]) =
      ([c2Expected].map (resultLogOf wReceiptStatus), some wLogsCache, false,
       txHashesOf [c2Expected]) ∧
    txHashesOf [c2Expected] ≠ [] ∧
    getLogsM (some []) c2Chain wReceiptStatus "0xbh" 7 (some ["0xa"]) =
      ((fetchLogs c2Chain 7 ["0xa"]).map (resultLogOf wReceiptStatus),
       some (cachePut [] ("getLogs", logsVars "0xbh" "7" (some ["0xa"]))
         (fetchLogs c2Chain 7 ["0xa"])),
       true,
       txHashesOf (fetchLogs c2Chain 7 ["0xa"])) ∧
    getBlocksM (some c7CexCache) (Except.ok none) =
      (Except.ok [], some c7CexCache, true) ∧
    getFullBlocksM none wEnc wEsc c7CexRaw =
      (getFullBlocks wEnc wEsc c7CexRaw, none, true) :=
  ⟨c7_theorem.1 wStorageCache "0xbh" "0xct" "01" wStorageProv "0xcachedval"
      (by decide),
   c7_theorem.2.1 [] "0xbh" "0xct" "01" wStorageProv (by decide),
   c7_theorem.2.2.1 wLogsCache c2Chain wReceiptStatus "0xbh" 7 (some ["0xa"])
      [c2Expected] (by decide),
   c7_theorem.2.2.2.2.1 [c2Expected] (by decide),
   c7_theorem.2.2.2.1 [] c2Chain wReceiptStatus "0xbh" 7 (some ["0xa"])
      (by decide),
   c7_theorem.2.2.2.2.2.1 (some c7CexCache) (Except.ok none),
   c7_theorem.2.2.2.2.2.2 none wEnc wEsc c7CexRaw⟩

/-! ### Sorting lemmas for combineIPLDState -/

/-- The character-list order is total. -/
theorem strLeList_total : ∀ (as bs : List Char),
    strLeList as bs = true ∨ strLeList bs as = true := by
  intro as
  induction as with
  | nil => intro bs; exact Or.inl rfl
  | cons a as ih =>
      intro bs
      cases bs with
      | nil => exact Or.inr rfl
      | cons b bs =>
          by_cases h1 : a.toNat < b.toNat
          · exact Or.inl (by simp [strLeList, h1])
          · by_cases h2 : b.toNat < a.toNat
            · exact Or.inr (by simp [strLeList, h1, h2])
            · rcases ih bs with h | h
              · exact Or.inl (by simp [strLeList, h1, h2, h])
              · exact Or.inr (by simp [strLeList, h1, h2, h])

/-- The character-list order is transitive. -/
theorem strLeList_trans : ∀ (as bs cs : List Char),
    strLeList as bs = true → strLeList bs cs = true → strLeList as cs = true := by
  intro as
  induction as with
  | nil => intro bs cs _ _; rfl
  | cons a as ih =>
      intro bs cs hab hbc
      cases bs with
      | nil => simp [strLeList] at hab
      | cons b bs =>
          cases cs with
          | nil => simp [strLeList] at hbc
          | cons c cs =>
              simp only [strLeList] at hab hbc ⊢
              by_cases hab1 : a.toNat < b.toNat
              · by_cases hbc1 : b.toNat < c.toNat
                · simp [show a.toNat < c.toNat by omega]
                · by_cases hbc2 : c.toNat < b.toNat
                  · simp [hbc1, hbc2] at hbc
                  · simp [show a.toNat < c.toNat by omega]
              · by_cases hab2 : b.toNat < a.toNat
                · simp [hab1, hab2] at hab
                · by_cases hbc1 : b.toNat < c.toNat
                  · simp [show a.toNat < c.toNat by omega]
                  · by_cases hbc2 : c.toNat < b.toNat
                    · simp [hbc1, hbc2] at hbc
                    · simp only [hab1, hab2, if_false] at hab
                      simp only [hbc1, hbc2, if_false] at hbc
                      simp only [show ¬a.toNat < c.toNat by omega,
                        show ¬c.toNat < a.toNat by omega, if_false]
                      exact ih bs cs hab hbc

/-- The character-list order is antisymmetric. -/
theorem strLeList_antisymm : ∀ (as bs : List Char),
    strLeList as bs = true → strLeList bs as = true → as = bs := by
  intro as
  induction as with
  | nil =>
      intro bs h1 h2
      cases bs with
      | nil => rfl
      | cons b bs => simp [strLeList] at h2
  | cons a as ih =>
      intro bs h1 h2
      cases bs with
      | nil => simp [strLeList] at h1
      | cons b bs =>
          by_cases c1 : a.toNat < b.toNat
          · simp [strLeList, c1, show ¬b.toNat < a.toNat by omega] at h2
          · by_cases c2 : b.toNat < a.toNat
            · simp [strLeList, c1, c2] at h1
            · have hc : a = b := Char.ext (UInt32.ext (by
                have : a.toNat = b.toNat := by omega
                simpa [Char.toNat, UInt32.toNat] using this))
              subst hc
              simp only [strLeList, c1, if_false] at h1 h2
              rw [ih bs h1 h2]

/-- The string order is antisymmetric. -/
theorem strLe_antisymm (s t : String) (h1 : strLe s t = true)
    (h2 : strLe t s = true) : s = t := by
  cases s with
  | mk ds =>
      cases t with
      | mk dt => exact congrArg String.mk (strLeList_antisymm ds dt h1 h2)

/-- The id comparator is transitive. -/
theorem relLe_trans (a b c : RelEntity) (hab : relLe a b = true)
    (hbc : relLe b c = true) : relLe a c = true :=
  strLeList_trans _ _ _ hab hbc

/-- The id comparator is total. -/
theorem relLe_total (a b : RelEntity) : relLe a b = true ∨ relLe b a = true :=
  strLeList_total _ _

/-- A failed comparison succeeds the other way. -/
theorem relLe_of_not (a b : RelEntity) (h : ¬relLe a b = true) :
    relLe b a = true := by
  rcases relLe_total a b with h1 | h1
  · exact absurd h1 h
  · exact h1

/-- The insertion step permutes the inserted list. -/
theorem perm_orderedInsert (a : RelEntity) : ∀ (l : List RelEntity),
    (orderedInsert a l).Perm (a :: l) := by
  intro l
  induction l with
  | nil => exact List.Perm.refl _
  | cons b t ih =>
      by_cases h : relLe a b = true
      · rw [orderedInsert, if_pos h]
      · rw [orderedInsert, if_neg h]
        exact (ih.cons b).trans (List.Perm.swap a b t)

/-- The stable sort permutes its input. -/
theorem perm_insertionSort : ∀ (l : List RelEntity),
    (insertionSort l).Perm l := by
  intro l
  induction l with
  | nil => exact List.Perm.refl _
  | cons a t ih => exact (perm_orderedInsert a (insertionSort t)).trans (ih.cons a)

/-- The insertion step preserves sortedness. -/
theorem sorted_orderedInsert (a : RelEntity) : ∀ (l : List RelEntity),
    List.Pairwise (fun x y => relLe x y = true) l →
    List.Pairwise (fun x y => relLe x y = true) (orderedInsert a l) := by
  intro l
  induction l with
  | nil => intro _; simp [orderedInsert]
  | cons b t ih =>
      intro hs
      obtain ⟨hb, ht⟩ := List.pairwise_cons.mp hs
      by_cases h : relLe a b = true
      · rw [orderedInsert, if_pos h]
        refine List.Pairwise.cons ?_ hs
        intro x hx
        cases List.mem_cons.mp hx with
        | inl hxb => exact hxb ▸ h
        | inr hxt => exact relLe_trans a b x h (hb x hxt)
      · rw [orderedInsert, if_neg h]
        refine List.Pairwise.cons ?_ (ih ht)
        intro x hx
        have hx' : x ∈ a :: t := (perm_orderedInsert a t).subset hx
        cases List.mem_cons.mp hx' with
        | inl hxa => exact hxa ▸ relLe_of_not a b h
        | inr hxt => exact hb x hxt

/-- The stable sort produces an id-sorted list. -/
theorem sorted_insertionSort : ∀ (l : List RelEntity),
    List.Pairwise (fun x y => relLe x y = true) (insertionSort l) := by
  intro l
  induction l with
  | nil => exact List.Pairwise.nil
  | cons a t ih => exact sorted_orderedInsert a (insertionSort t) ih

/-- Two id-sorted permutations of each other with pairwise distinct ids are
equal: on such lists the sorted order is unique. -/
theorem sorted_nodup_eq {l₁ l₂ : List RelEntity} (hp : l₁.Perm l₂)
    (hs₁ : List.Pairwise (fun a b => relLe a b = true) l₁)
    (hs₂ : List.Pairwise (fun a b => relLe a b = true) l₂)
    (hn : (l₁.map RelEntity.id).Nodup) : l₁ = l₂ := by
  haveI : IsAntisymm RelEntity (fun a b => relLe a b = true ∧ a.id ≠ b.id) :=
    ⟨fun a b h1 h2 => absurd (strLe_antisymm a.id b.id h1.1 h2.1) h1.2⟩
  have hn₂ : (l₂.map RelEntity.id).Nodup := ((hp.map RelEntity.id).nodup_iff).mp hn
  have sortedStrict : ∀ (l : List RelEntity),
      List.Pairwise (fun a b => relLe a b = true) l →
      (l.map RelEntity.id).Nodup →
      List.Pairwise (fun a b : RelEntity => relLe a b = true ∧ a.id ≠ b.id) l := by
    intro l hs hnd
    exact hs.and ((List.pairwise_map).mp hnd)
  exact List.eq_of_perm_of_sorted hp (sortedStrict l₁ hs₁ hn)
    (sortedStrict l₂ hs₂ hn₂)

/-- Normalizing a field is invariant under permutation of a well-formed
entity-relation array. -/
theorem procField_perm {fv₁ fv₂ : FieldValue} (hp : fvPerm fv₁ fv₂)
    (hg : goodFV fv₁) : procField fv₁ = procField fv₂ := by
  cases fv₁ with
  | scalar s =>
      cases fv₂ with
      | scalar t =>
          have : s = t := hp
          subst this; rfl
      | arr b => exact absurd hp (by simp [fvPerm])
  | arr a =>
      cases fv₂ with
      | scalar t => exact absurd hp (by simp [fvPerm])
      | arr b =>
          have hab : a.Perm b := hp
          have hga : goodArr a := hg
          cases a with
          | nil =>
              have hb : b = [] := List.perm_nil.mp hab.symm
              subst hb; rfl
          | cons e rest =>
              cases b with
              | nil => exact absurd (List.perm_nil.mp hab) (by simp)
              | cons f bs =>
                  have he : ¬e.id = "" := hga.1 e (by simp)
                  have hf : ¬f.id = "" := hga.1 f (hab.mem_iff.mpr (by simp))
                  have hms : insertionSort (e :: rest) = insertionSort (f :: bs) := by
                    apply sorted_nodup_eq
                    · exact (perm_insertionSort (e :: rest)).trans
                        (hab.trans (perm_insertionSort (f :: bs)).symm)
                    · exact sorted_insertionSort _
                    · exact sorted_insertionSort _
                    · exact (((perm_insertionSort (e :: rest)).map
                        RelEntity.id).nodup_iff).mpr hga.2
                  simp [procField, he, hf, hms]

/-- Normalizing an entity is invariant under permutation of its well-formed
array fields. -/
theorem processEntity_perm {e₁ e₂ : Entity} (hp : entPerm e₁ e₂)
    (hg : goodEntity e₁) : processEntity e₁ = processEntity e₂ :=
  map_eq_of_forall₂ hp (fun a ha b hr => by
    obtain ⟨hk, hv⟩ := hr
    simp [hk, procField_perm hv (hg a ha)])

/-- Normalizing an id→entity map is invariant under permutation of its
well-formed array fields. -/
theorem processIdEntityMap_perm {m₁ m₂ : IdEntityMap} (hp : idMapPerm m₁ m₂)
    (hg : goodIdEntityMap m₁) : processIdEntityMap m₁ = processIdEntityMap m₂ :=
  map_eq_of_forall₂ hp (fun a ha b hr => by
    obtain ⟨hk, hv⟩ := hr
    simp [hk, processEntity_perm hv (hg a ha)])

/-- Normalizing a payload is invariant under permutation of its well-formed
array fields. -/
theorem processState_perm {d₁ d₂ : StateData} (hp : statePerm d₁ d₂)
    (hg : goodStateData d₁) : processState d₁ = processState d₂ :=
  map_eq_of_forall₂ hp (fun a ha b hr => by
    obtain ⟨hk, hv⟩ := hr
    simp [hk, processIdEntityMap_perm hv (hg a ha)])

/-- The per-contract step is invariant under permutation of a well-formed
optional payload. -/
theorem processIPLD_perm {p q : Option StateData} (hp : optStatePerm p q)
    (hg : goodOpt p) : processIPLD p = processIPLD q := by
  cases p with
  | none =>
      cases q with
      | none => rfl
      | some d => exact absurd hp (by simp [optStatePerm])
  | some d =>
      cases q with
      | none => exact absurd hp (by simp [optStatePerm])
      | some d₂ =>
          have : statePerm d d₂ := hp
          have hgd : goodStateData d := hg
          simp [processIPLD, processState_perm this hgd]

/-! ### C4: sortedness and truncation of normalized entity arrays -/

/-- C4 (counterexample).  On two payloads contributing to the same entity
field, the lodash merge combines the individually sorted arrays index-wise,
and the combined output contains a non-empty entity-relation array with
non-empty ids that is not sorted by id. -/
theorem c4_counterexample :
    combineIPLDState [c4P1, c4P2] =
      some [("E", [("1", [("f", FieldValue.arr c4BadArr)])])] ∧
    c4BadArr ≠ [] ∧ (∀ e ∈ c4BadArr, e.id ≠ "") ∧
    ¬List.Pairwise (fun a b => relLe a b = true) c4BadArr := by
  refine ⟨by decide, by decide, by decide, by decide⟩

/-- C4 (amended).  In each individually normalized payload (before the
lodash merge of the contracts' states), every entity-relation array field
that is non-empty and whose elements all carry a non-empty id is sorted
ascending by id and has at most `DEFAULT_LIMIT` elements. -/
theorem c4_theorem (d : StateData) (en : String) (ie : IdEntityMap)
    (idk : String) (ent : Entity) (fn : String) (l : List RelEntity)
    (h1 : (en, ie) ∈ processState d) (h2 : (idk, ent) ∈ ie)
    (h3 : (fn, FieldValue.arr l) ∈ ent)
    (hne : l ≠ []) (hid : ∀ e ∈ l, e.id ≠ "") :
    List.Pairwise (fun a b => relLe a b = true) l ∧ l.length ≤ DEFAULT_LIMIT := by
  simp only [processState, List.mem_map] at h1
  obtain ⟨⟨en₀, ie₀⟩, hmem₀, heq₀⟩ := h1
  obtain ⟨he₁, he₂⟩ := Prod.mk.injEq .. ▸ heq₀
  subst he₁
  rw [← he₂] at h2
  simp only [processIdEntityMap, List.mem_map] at h2
  obtain ⟨⟨idk₀, ent₀⟩, hmem₁, heq₁⟩ := h2
  obtain ⟨hi₁, hi₂⟩ := Prod.mk.injEq .. ▸ heq₁
  subst hi₁
  rw [← hi₂] at h3
  simp only [processEntity, List.mem_map] at h3
  obtain ⟨⟨fn₀, fv₀⟩, hmem₂, heq₂⟩ := h3
  obtain ⟨hf₁, hf₂⟩ := Prod.mk.injEq .. ▸ heq₂
  subst hf₁
  cases fv₀ with
  | scalar s => exact absurd hf₂.symm (by simp [procField])
  | arr a =>
      cases a with
      | nil =>
          simp only [procField] at hf₂
          exact absurd (FieldValue.arr.inj hf₂).symm hne
      | cons e rest =>
          by_cases hehd : e.id = ""
          · simp only [procField, if_pos hehd] at hf₂
            have hl : l = e :: rest := (FieldValue.arr.inj hf₂).symm
            exact absurd (hid e (hl ▸ List.mem_cons_self e rest)) (by simp [hehd])
          · simp only [procField, if_neg hehd] at hf₂
            have hl : l = (insertionSort (e :: rest)).take DEFAULT_LIMIT :=
              (FieldValue.arr.inj hf₂).symm
            subst hl
            constructor
            · exact List.Pairwise.sublist (List.take_sublist _ _)
                (sorted_insertionSort _)
            · exact List.length_take_le _ _

/-- Witness for the amended C4 on a concrete unsorted payload. -/
theorem c4_theorem_witness :
    List.Pairwise (fun a b => relLe a b = true) c4WitnessArr ∧
    c4WitnessArr.length ≤ DEFAULT_LIMIT :=
  c4_theorem c4WitnessInput "E" [("1", [("f", FieldValue.arr c4WitnessArr)])]
    "1" [("f", FieldValue.arr c4WitnessArr)] "f" c4WitnessArr
    (by decide) (by decide) (by decide) (by decide) (by decide)

/-! ### C5: permutation invariance of combineIPLDState -/

/-- C5 (counterexample).  Two inputs equal up to reordering of an
entity-relation array — two elements sharing the id `a` — on which
`combineIPLDState` produces different outputs: the stable sort keeps the
insertion order of equal ids. -/
theorem c5_counterexample :
    List.Forall₂ optStatePerm c5P1 c5P2 ∧
    combineIPLDState c5P1 ≠ combineIPLDState c5P2 := by
  constructor
  · refine List.Forall₂.cons ?_ List.Forall₂.nil
    show statePerm _ _
    refine List.Forall₂.cons ⟨rfl, ?_⟩ List.Forall₂.nil
    show idMapPerm _ _
    refine List.Forall₂.cons ⟨rfl, ?_⟩ List.Forall₂.nil
    show entPerm _ _
    refine List.Forall₂.cons ⟨rfl, ?_⟩ List.Forall₂.nil
    show List.Perm _ _
    decide
  · decide

/-- C5 (amended).  `combineIPLDState` is invariant under permutation of the
elements of the entity-relation array fields of its input payloads,
provided every such array is well-formed: all its elements carry non-empty,
pairwise distinct ids. -/
theorem c5_theorem (ps qs : List (Option StateData))
    (hp : List.Forall₂ optStatePerm ps qs) (hg : ∀ p ∈ ps, goodOpt p) :
    combineIPLDState ps = combineIPLDState qs := by
  unfold combineIPLDState
  rw [map_eq_of_forall₂ hp (fun a ha b hr => processIPLD_perm hr (hg a ha))]

/-- Witness for the amended C5 at a concrete pair of permuted inputs. -/
theorem c5_theorem_witness : combineIPLDState c5WPs = combineIPLDState c5WQs :=
  c5_theorem c5WPs c5WQs
    (by
      refine List.Forall₂.cons ?_ List.Forall₂.nil
      show statePerm _ _
      refine List.Forall₂.cons ⟨rfl, ?_⟩ List.Forall₂.nil
      show idMapPerm _ _
      refine List.Forall₂.cons ⟨rfl, ?_⟩ List.Forall₂.nil
      show entPerm _ _
      refine List.Forall₂.cons ⟨rfl, ?_⟩ List.Forall₂.nil
      show List.Perm _ _
      decide)
    (by
      intro p hp
      simp only [c5WPs, List.mem_singleton] at hp
      subst hp
      intro kv hkv
      simp only [List.mem_singleton] at hkv
      subst hkv
      intro kv₂ hkv₂
      simp only [List.mem_singleton] at hkv₂
      subst hkv₂
      intro kv₃ hkv₃
      simp only [List.mem_singleton] at hkv₃
      subst hkv₃
      exact ⟨by decide, by decide⟩)

end Watcher
